import Mathlib

/-!
Verification of the row-compaction (`copy_if` / boolean-mask filter) core and of the
elementwise `clamp` transform of the cudf repository.

The embedding below is a shallow, sequential model of the CUDA sources:

* device buffers are modelled as index-to-value functions (`Nat → Int` for data,
  `Nat → Bool` for bit positions of a packed validity mask), with explicit extents;
* machine integers (`gdf_size_type`, `gdf_index_type`) are modelled as `Nat`
  (all quantities involved are non-negative sizes, counts and indices);
* the deterministic parallel kernels are sequentialised: blocks, tiles ("per_thread"
  iterations), warps and threads are processed in index order, which is one valid
  schedule of the device execution;
* CUB primitives (`BlockScan::ExclusiveSum`, `DeviceScan::ExclusiveSum`,
  `__syncthreads_count`, `__ballot_sync`, `__popc`, `atomicOr`, `atomicAdd`) are
  embedded with their documented semantics;
* fallible host entry points (`CUDF_EXPECTS`) return `Except String _`.
-/

namespace Cudf

/-! ## Data model: columns and tables (legacy `gdf_column` / `cudf::table`) -/

/-- Model of a legacy `gdf_column`: a runtime type tag, a row count, an optional
data buffer (a null `data` pointer is `none`), an optional packed validity
bitmask (`none` when the column is not nullable; bit `i` of the mask is entry
`i` of the list, `true` = valid), and the cached `null_count`. -/
structure Column where
  dtype : Nat
  size : Nat
  data : Option (List Int)
  valid : Option (List Bool)
  null_count : Nat
deriving Repr, DecidableEq

instance : Inhabited Column := ⟨⟨0, 0, none, none, 0⟩⟩

/-- Model of `cudf::table`: an ordered collection of equal-length columns. -/
structure Table where
  cols : List Column
deriving Repr, DecidableEq

/-- Row count of a table: the size of its first column (`0` for a table with no
columns), as recorded by the legacy `table` constructor. -/
def Table.num_rows (t : Table) : Nat :=
  match t.cols with
  | [] => 0
  | c :: _ => c.size

/-- Column count of a table. -/
def Table.num_columns (t : Table) : Nat := t.cols.length

/-- Well-formedness of an optional validity mask with respect to a size and a
cached null count: a mask, when present, has one bit per row and the null
count is the number of unset bits; without a mask the null count is zero. -/
def maskWf (v : Option (List Bool)) (size nc : Nat) : Prop :=
  match v with
  | some m => m.length = size ∧ nc = (m.filter (fun b => !b)).length
  | none => nc = 0

instance : ∀ (v : Option (List Bool)) (size nc : Nat), Decidable (maskWf v size nc)
  | none, _, _ => inferInstanceAs (Decidable (_ = _))
  | some _, _, _ => inferInstanceAs (Decidable (_ ∧ _))

/-- Well-formedness of a column of size `n`: the data buffer is present and has
`n` entries; a validity mask, when present, has `n` bits and the cached
`null_count` equals the number of unset bits; a non-nullable column has
`null_count = 0`. -/
def Column.wf (c : Column) : Prop :=
  c.data.isSome = true ∧ (c.data.getD []).length = c.size ∧ maskWf c.valid c.size c.null_count

instance (c : Column) : Decidable c.wf := by
  unfold Column.wf; exact inferInstance

/-- Well-formedness of a table: every column is well-formed and has the table's
row count. -/
def Table.wf (t : Table) : Prop :=
  ∀ c ∈ t.cols, c.wf ∧ c.size = t.num_rows

instance (t : Table) : Decidable t.wf := by
  unfold Table.wf; exact List.decidableBAll _ t.cols

/-! ## External table construction services

`empty_like`, `allocate_like` and `cudf::copy` are collaborators outside the
compaction core (spec §6); `allocate_like`'s zero-initialisation is folded into
the initial scatter state below. -/

/-- Modelled from the spec: `empty_like` for one column — same type tag, zero
rows, no buffers (`cudf::empty_like`, not under `src/`). -/
def empty_column (c : Column) : Column :=
  { dtype := c.dtype, size := 0, data := none, valid := none, null_count := 0 }

/-- Modelled from the spec: `cudf::empty_like(table)` — an empty table of the
same schema (not under `src/`). -/
def empty_like (t : Table) : Table := ⟨t.cols.map empty_column⟩

/-- Modelled from the spec: `cudf::copy(table)` — a full deep copy, which in a
value-semantics model is the identity (not under `src/`). -/
def copy (t : Table) : Table := t

/-! ## Grid configuration and the block pass-count stage -/

/-- `warp_size` (copyif source, line 44). -/
def warp_size : Nat := 32

/-- `block_size` used by `cudf::detail::copy_if` (line 308). -/
def block_size : Nat := 256

/-- `per_thread` used by `cudf::detail::copy_if` (line 309). -/
def per_thread : Nat := 32

/-- `num_warps = block_size / warp_size` (scatter kernel, line 157). -/
def num_warps : Nat := block_size / warp_size

/-- Modelled from the spec: `cudf::util::cuda::grid_config_1d` (the helper lives
in `utilities/cuda_utils.hpp`, not under `src/`): it partitions `n` rows into
`ceil(n / (block_size * per_thread))` blocks. -/
def num_blocks (n : Nat) : Nat :=
  (n + block_size * per_thread - 1) / (block_size * per_thread)

/-- First global row index of tile `i` of block `b`: the kernels compute
`tid = threadIdx.x + per_thread * block_size * blockIdx.x` and advance `tid` by
`block_size` at each of the `per_thread` iterations. -/
def tile_base (b i : Nat) : Nat := per_thread * block_size * b + i * block_size

/-- `__syncthreads_count` over one block: the number of the `block_size`
threads whose predicate holds. -/
def syncthreads_count (pred : Nat → Bool) : Nat :=
  ((List.range block_size).filter pred).length

/-- One block's body of the `compute_block_counts` kernel (lines 47-60): the
thread-count of passing rows, accumulated over the `per_thread` tiles. -/
def compute_block_count (filter : Nat → Bool) (b : Nat) : Nat :=
  (List.range per_thread).foldl
    (fun count i => count + syncthreads_count (fun t => filter (t + tile_base b i))) 0

/-- The `block_counts` array written by the `compute_block_counts` kernel launch
(one entry per block). -/
def compute_block_counts (filter : Nat → Bool) (nb : Nat) : List Nat :=
  (List.range nb).map (compute_block_count filter)

/-! ## Global exclusive scan stage and output-size resolver -/

/-- Running-sum worker for the exclusive scan. -/
def exclusive_scan_from (acc : Nat) : List Nat → List Nat
  | [] => []
  | c :: cs => acc :: exclusive_scan_from (acc + c) cs

/-- `cub::DeviceScan::ExclusiveSum` (external primitive, documented as the
exclusive prefix sum of its input). -/
def exclusive_scan (l : List Nat) : List Nat := exclusive_scan_from 0 l

/-- The `block_offsets` array of `cudf::detail::copy_if` (lines 322-341): the
exclusive prefix sum of `block_counts` when there is more than one block, and a
zero-filled array (`cudaMemsetAsync`) otherwise. -/
def block_offsets_of (block_counts : List Nat) (nb : Nat) : List Nat :=
  if nb > 1 then exclusive_scan block_counts else List.replicate nb 0

/-- `get_output_size` (lines 255-269): the last block's pass count plus, when
there is more than one block, the last block's scan offset (`last_block_offset`
stays `0` for a single block). -/
def get_output_size (block_counts block_offsets : List Nat) (nb : Nat) : Nat :=
  block_counts.getD (nb - 1) 0 + (if nb > 1 then block_offsets.getD (nb - 1) 0 else 0)

/-! ## The scatter kernel

Buffers are modelled as lists indexed by position: entry `p` of the data list
is the element at output row `p`, entry `p` of the validity list is bit `p` of
the packed bitmask. `List.set` beyond the allocated extent is a no-op, which
matches the model ignoring the physical padding bits past the last row. -/

/-- `block_scan_mask` / `cub::BlockScan::ExclusiveSum` (lines 62-74), per
thread: thread `t`'s exclusive prefix of the block's mask bits. -/
def local_index (mask : Nat → Bool) (t : Nat) : Nat :=
  ((List.range t).filter mask).length

/-- The `block_sum` aggregate of the intra-block scan: the number of passing
threads of the tile. -/
def block_sum_of (mask : Nat → Bool) : Nat :=
  ((List.range block_size).filter mask).length

/-- Staging of passing rows' data into shared memory (line 128):
`temp_data[local_index] = input_data[tid]` for every passing thread. -/
def stage_data (idat : Nat → Int) (base : Nat) (mask : Nat → Bool) : List Int :=
  (List.range block_size).foldl
    (fun temp t => if mask t then temp.set (local_index mask t) (idat (t + base)) else temp)
    (List.replicate block_size 0)

/-- Coalesced copy of the staged data to global memory (lines 147-148):
`output_data[block_offset + threadIdx.x] = temp_data[threadIdx.x]` for the
first `block_sum` threads. -/
def write_data (out : List Int) (boff : Nat) (temp : List Int) (s : Nat) : List Int :=
  (List.range block_size).foldl
    (fun o t => if t < s then o.set (boff + t) (temp.getD t 0) else o) out

/-- Staging of passing rows' validity bits into the shared scratch bit array
(lines 122-135): all `block_size + warp_size` scratch bits start `false`, and
`temp_valids[local_index + aligned_offset] = true` for every passing valid row,
with `aligned_offset = block_offset % warp_size`. -/
def stage_valids (ivalid : Nat → Bool) (base : Nat) (mask : Nat → Bool)
    (aligned_offset : Nat) : List Bool :=
  (List.range block_size).foldl
    (fun temp t =>
      if mask t && ivalid (t + base) then temp.set (local_index mask t + aligned_offset) true
      else temp)
    (List.replicate (block_size + warp_size) false)

/-- `__ballot_sync` of one warp over the scratch bit array starting at
`start`: the warp's 32 mask bits, lane by lane. -/
def ballot (temp : List Bool) (start : Nat) : List Bool :=
  (List.range warp_size).map (fun lane => temp.getD (start + lane) false)

/-- `__popc` of a ballot word. -/
def popc (w : List Bool) : Nat := (w.filter id).length

/-- A direct store of one packed 32-bit validity word (line 171): the 32 bit
positions of word `w` are replaced by the ballot's lanes. -/
def write_word (m : List Bool) (w : Nat) (vw : List Bool) : List Bool :=
  (List.range warp_size).foldl
    (fun m lane => m.set (warp_size * w + lane) (vw.getD lane false)) m

/-- `atomicOr` of one packed 32-bit validity word (lines 173, 183): each bit of
word `w` is ORed with the ballot's lane, so exactly the set lanes are stored. -/
def or_word (m : List Bool) (w : Nat) (vw : List Bool) : List Bool :=
  (List.range warp_size).foldl
    (fun m lane => if vw.getD lane false then m.set (warp_size * w + lane) true else m) m

/-- The validity-packing phase of one tile (lines 150-202): per warp `wid`
with `block_sum > 0` and `wid <= last_warp` (`last_warp = block_sum / warp_size`),
the warp ballots its 32 scratch bits and lane 0 stores the word — directly for
interior warps, via `atomicOr` for the first and last; warp 0 additionally
covers the overflow scratch word when the tile is full
(`last_warp == num_warps`). The returned `Nat` is the block's total valid count
(the `cub::WarpReduce` sum of `warp_valid_counts`). -/
def scatter_words (ov : List Bool) (temp : List Bool) (boff s : Nat) :
    List Bool × Nat :=
  (List.range num_warps).foldl
    (fun st wid =>
      if 0 < s ∧ wid ≤ s / warp_size then
        let valid_index := boff / warp_size + wid
        let vw := ballot temp (warp_size * wid)
        let st1 := if vw.any id then
            ((if 0 < wid ∧ wid < s / warp_size then write_word st.1 valid_index vw
              else or_word st.1 valid_index vw), st.2 + popc vw)
          else st
        if wid = 0 ∧ s / warp_size = num_warps then
          let vw2 := ballot temp block_size
          if vw2.any id then (or_word st1.1 (valid_index + num_warps) vw2, st1.2 + popc vw2)
          else st1
        else st1
      else st)
    (ov, 0)

/-- State threaded through the sequentialised scatter kernel: the output data
and validity buffers, the running global null counter (`atomicAdd` target) and
the kernel-local `block_offset`. -/
structure ScatterState where
  data : List Int
  valid : List Bool
  null_count : Nat
  block_offset : Nat

/-- One `per_thread` iteration of `scatter_kernel` (lines 113-207) over the
tile of `block_size` rows starting at `base`: stage and write the passing
data, and — for a nullable column — stage, pack and store the validity bits,
accumulate `block_sum - block_valid_count` into the null counter, then advance
`block_offset` by `block_sum`. -/
def scatter_tile (idat : Nat → Int) (ivalid : Option (Nat → Bool)) (f : Nat → Bool)
    (base : Nat) (st : ScatterState) : ScatterState :=
  let mask : Nat → Bool := fun t => f (t + base)
  let s := block_sum_of mask
  let temp := stage_data idat base mask
  let data := write_data st.data st.block_offset temp s
  match ivalid with
  | some iv =>
      let tv := stage_valids iv base mask (st.block_offset % warp_size)
      let ws := scatter_words st.valid tv st.block_offset s
      { data := data, valid := ws.1, null_count := st.null_count + (s - ws.2),
        block_offset := st.block_offset + s }
  | none =>
      { st with data := data, block_offset := st.block_offset + s }

/-- One block of `scatter_kernel`: `block_offset` is loaded from
`block_offsets[blockIdx.x]` (line 104) and the `per_thread` tiles are
processed in order. -/
def scatter_block (idat : Nat → Int) (ivalid : Option (Nat → Bool)) (f : Nat → Bool)
    (offsets : List Nat) (b : Nat) (st : ScatterState) : ScatterState :=
  (List.range per_thread).foldl
    (fun s i => scatter_tile idat ivalid f (tile_base b i) s)
    { st with block_offset := offsets.getD b 0 }

/-- `scatter_functor::operator()` for one column (lines 211-251), launched on
the grid of `num_blocks` blocks over output buffers zero-initialised by
`allocate_like` and a zeroed device null counter: the nullable specialisation
copies the accumulated null count back into the output column, the
non-nullable one leaves the fresh column's `null_count` (zero). -/
def scatter_column (c : Column) (osize : Nat) (offsets : List Nat) (nb : Nat)
    (f : Nat → Bool) : Column :=
  let idat : Nat → Int := fun i => (c.data.getD []).getD i 0
  let ivalid : Option (Nat → Bool) := c.valid.map (fun m i => m.getD i false)
  let st0 : ScatterState :=
    ⟨List.replicate osize 0,
     match c.valid with | some _ => List.replicate osize false | none => [], 0, 0⟩
  let fin := (List.range nb).foldl (fun st b => scatter_block idat ivalid f offsets b st) st0
  { dtype := c.dtype, size := osize,
    data := some fin.data,
    valid := c.valid.map (fun _ => fin.valid),
    null_count := if c.valid.isSome then fin.null_count else 0 }

/-! ## The orchestrator `cudf::detail::copy_if(table)` -/

/-- `cudf::detail::copy_if(table, filter)` (lines 289-369): empty input short
circuit, the `CUDF_EXPECTS` null-data guard, the count / scan / resolve
pipeline, the full-copy fast path when every row passes, the per-column
scatter, and the empty result when no row passes. -/
def copy_if (input : Table) (filter : Nat → Bool) : Except String Table :=
  if 0 = input.num_rows ∨ 0 = input.num_columns then .ok (empty_like input)
  else if ¬ (input.cols.all fun c => c.data.isSome) then .error "Null input data"
  else
    let nb := num_blocks input.num_rows
    let block_counts := compute_block_counts filter nb
    let block_offsets := block_offsets_of block_counts nb
    let output_size := get_output_size block_counts block_offsets nb
    if output_size = input.num_rows then .ok (copy input)
    else if output_size > 0 then
      .ok ⟨input.cols.map (fun c => scatter_column c output_size block_offsets nb filter)⟩
    else .ok (empty_like input)

/-! ## Selection bookkeeping used by the specification layer -/

/-- The number of predicate-true indices below `m`. -/
def passCount (f : Nat → Bool) (m : Nat) : Nat := ((List.range m).filter f).length

/-- The predicate-true indices below `m`, in increasing order. -/
def selList (f : Nat → Bool) (m : Nat) : List Nat := (List.range m).filter f

end Cudf

namespace Cudf.Clamp

/-! ## The `clamp` transform (`src/cpp/src/replace/clamp.cu`) -/

/-- Model of a `cudf::scalar`: a fixed-width scalar (type tag, validity,
value) or a string scalar. -/
inductive Scalar where
  | fixed (dtype : Nat) (valid : Bool) (value : Int)
  | str (valid : Bool) (value : String)
deriving Repr, DecidableEq

/-- Type tag of the string dtype (`type_id::STRING`); fixed-width tags are
taken distinct from it. -/
def string_dtype : Nat := 0

/-- Runtime type tag of a scalar. -/
def Scalar.dtype : Scalar → Nat
  | .fixed d _ _ => d
  | .str _ _ => string_dtype

/-- `scalar::is_valid()`. -/
def Scalar.is_valid : Scalar → Bool
  | .fixed _ v _ => v
  | .str v _ => v

/-- The typed value read through `make_pair_iterator<T>(scalar)` for a
fixed-width `T` (meaningful after the type checks of `detail::clamp`). -/
def Scalar.ival : Scalar → Int
  | .fixed _ _ v => v
  | .str _ _ => 0

/-- The typed value read through the scalar iterator for `string_view`. -/
def Scalar.sval : Scalar → String
  | .str _ v => v
  | .fixed _ _ _ => ""

/-- Model of a `cudf::column_view` handed to `clamp`: either a fixed-width
column or a strings column, each with an optional validity mask and a cached
null count. -/
inductive CV where
  | fixed (dtype : Nat) (data : List Int) (valid : Option (List Bool)) (null_count : Nat)
  | str (data : List String) (valid : Option (List Bool)) (null_count : Nat)
deriving Repr, DecidableEq

/-- `column_view::type()`. -/
def CV.dtype : CV → Nat
  | .fixed d _ _ _ => d
  | .str _ _ _ => string_dtype

/-- `column_view::size()`. -/
def CV.size : CV → Nat
  | .fixed _ l _ _ => l.length
  | .str l _ _ => l.length

/-- `column_view::is_empty()`. -/
def CV.is_empty (c : CV) : Bool := c.size == 0

/-- The validity mask of a column view. -/
def CV.mask : CV → Option (List Bool)
  | .fixed _ _ v _ => v
  | .str _ v _ => v

/-- `column_view::null_count()`. -/
def CV.nulls : CV → Nat
  | .fixed _ _ _ n => n
  | .str _ _ n => n

/-- The data entries of a fixed-width column view (empty for strings). -/
def CV.fixedData : CV → List Int
  | .fixed _ l _ _ => l
  | .str _ _ _ => []

/-- The string entries of a strings column view (empty for fixed width). -/
def CV.strData : CV → List String
  | .str l _ _ => l
  | .fixed _ _ _ _ => []

/-- Well-formedness of a clamp input column: a mask, when present, has one bit
per row and `null_count` counts its unset bits; a column without a mask has
`null_count = 0`. -/
def CV.wf (c : CV) : Prop := Cudf.maskWf c.mask c.size c.nulls

instance (c : CV) : Decidable c.wf := by
  unfold CV.wf; exact inferInstance

/-- The `trans` lambda of the fixed-width `clamper` (lines 244-259): a valid
element below a valid `lo` becomes `lo_replace`, a valid element above a valid
`hi` becomes `hi_replace`, and every other element — null elements included —
keeps its input value. -/
def clamp_trans (lo lo_replace hi hi_replace : Scalar) (x : Int) (xv : Bool) : Int :=
  if xv then
    if lo.is_valid && decide (x < lo.ival) then lo_replace.ival
    else if hi.is_valid && decide (x > hi.ival) then hi_replace.ival
    else x
  else x

/-- The fixed-width `clamper` specialisation (lines 225-272): the output is
allocated without a mask, the input's mask and null count are copied over when
the input is nullable, and the data is `thrust::transform` of the pair
iterator (`make_pair_iterator<T, true>` when the column has nulls, all-valid
pairs otherwise) under `clamp_trans`. -/
def clamper_fixed (d : Nat) (data : List Int) (valid : Option (List Bool))
    (null_count : Nat) (lo lo_replace hi hi_replace : Scalar) : CV :=
  let pairs : List (Int × Bool) :=
    if 0 < null_count then data.zip (valid.getD [])
    else data.map (fun x => (x, true))
  let out_data := pairs.map (fun p => clamp_trans lo lo_replace hi hi_replace p.1 p.2)
  CV.fixed d out_data valid (match valid with | some _ => null_count | none => 0)

/-- Byte count an element contributes to the clamped strings column (the
`offsets_transformer` lambdas, lines 88-101, 130-142, 169-181); the model
measures strings by their length. -/
def str_bytes (lo_v hi_v : Bool) (lo lo_replace hi hi_replace : String)
    (element : String) (is_valid : Bool) : Nat :=
  if is_valid then
    if lo_v && hi_v then
      if element < lo then lo_replace.length
      else if hi < element then hi_replace.length
      else element.length
    else if hi_v then
      if hi < element then hi_replace.length else element.length
    else
      if element < lo then lo_replace.length else element.length
  else 0

/-- The string stored for one row by the `copy_transformer` lambdas
(lines 110-123, 151-162, 190-201): null rows copy nothing, other rows copy the
replacement chosen by the same comparisons as `str_bytes`. -/
def str_entry (lo_v hi_v : Bool) (lo lo_replace hi hi_replace : String)
    (element : String) (is_valid : Bool) : String :=
  if is_valid then
    if lo_v && hi_v then
      if element < lo then lo_replace
      else if hi < element then hi_replace
      else element
    else if hi_v then
      if hi < element then hi_replace else element
    else
      if element < lo then lo_replace else element
  else ""

/-- `clamp_string_column` (lines 66-207): the offsets column is the exclusive
scan of the per-row byte counts, the chars column the concatenation of the
per-row copies, and `make_strings_column` receives the input's null count and
a copy of the input's bitmask. -/
def clamp_string_column (data : List String) (valid : Option (List Bool))
    (null_count : Nat) (lo lo_replace hi hi_replace : Scalar) : CV :=
  let vbit : Nat → Bool := fun i => (valid.getD []).getD i true
  let entries := (List.range data.length).map
    (fun i => str_entry lo.is_valid hi.is_valid lo.sval lo_replace.sval hi.sval hi_replace.sval
      (data.getD i "") (vbit i))
  CV.str entries valid null_count

/-- `dispatch_clamp` through `type_dispatcher` (lines 301-320, 357-360): the
fixed-width `clamper` for fixed-width columns, `clamp_string_column` for
strings. -/
def dispatch_clamp (input : CV) (lo lo_replace hi hi_replace : Scalar) : CV :=
  match input with
  | .fixed d data valid nc => clamper_fixed d data valid nc lo lo_replace hi hi_replace
  | .str data valid nc => clamp_string_column data valid nc lo lo_replace hi hi_replace

/-- `cudf::experimental::detail::clamp` (lines 332-361): the four type checks,
the no-change early return (both limits null, or empty input), the
replacement-validity checks, and the dispatch. -/
def clamp (input : CV) (lo lo_replace hi hi_replace : Scalar) : Except String CV :=
  if ¬ (lo.dtype = hi.dtype) then .error "mismatching types of limit scalars"
  else if ¬ (lo_replace.dtype = hi_replace.dtype) then
    .error "mismatching types of replace scalars"
  else if ¬ (lo.dtype = lo_replace.dtype) then
    .error "mismatching types of limit and replace scalars"
  else if ¬ (lo.dtype = input.dtype) then .error "mismatching types of scalar and input"
  else if (¬ lo.is_valid = true ∧ ¬ hi.is_valid = true) ∨ input.is_empty = true then
    .ok input
  else if lo.is_valid = true ∧ ¬ lo_replace.is_valid = true then
    .error "lo_replace can't be null"
  else if hi.is_valid = true ∧ ¬ hi_replace.is_valid = true then
    .error "hi_replace can't be null"
  else .ok (dispatch_clamp input lo lo_replace hi hi_replace)

end Cudf.Clamp

instance {ε α : Type} [DecidableEq ε] [DecidableEq α] : DecidableEq (Except ε α)
  | .error e, .error f =>
    if h : e = f then .isTrue (by rw [h]) else .isFalse (by intro hc; cases hc; exact h rfl)
  | .error _, .ok _ => .isFalse (by intro hc; cases hc)
  | .ok _, .error _ => .isFalse (by intro hc; cases hc)
  | .ok a, .ok b =>
    if h : a = b then .isTrue (by rw [h]) else .isFalse (by intro hc; cases hc; exact h rfl)

namespace Cudf

/-! ## Concrete inputs used by the verification layer -/

/-- A tiny well-formed nullable column table: two rows, row 1 null. -/
def sampleT : Table := ⟨[⟨1, 2, some [5, 6], some [true, false], 1⟩]⟩

/-- An all-pass predicate for `sampleT` (true exactly on the 2 in-range rows). -/
def sampleF : Nat → Bool := fun i => decide (i < 2)

/-- A half-pass predicate for `sampleT` (true exactly on row 0). -/
def sampleHalfF : Nat → Bool := fun i => decide (i = 0)

/-- The always-false predicate. -/
def falseF : Nat → Bool := fun _ => false

/-- A zero-row, one-column table. -/
def sampleT0 : Table := ⟨[⟨1, 0, some [], none, 0⟩]⟩

/-- A nonempty table whose column has a null data buffer. -/
def nullDataT : Table := ⟨[⟨1, 2, none, none, 0⟩]⟩

/-- Input exhibiting the misaligned-warp validity loss: 258 rows, all valid;
the predicate keeps 31 rows of the first tile and rows 256 and 257 of the
second tile, so the second tile starts at output offset 31
(`aligned_offset = 31`) with `block_sum = 2` and `last_warp = 0`. -/
def misalignedT : Table :=
  ⟨[⟨1, 258, some ((List.range 258).map Int.ofNat), some (List.replicate 258 true), 0⟩]⟩

/-- The predicate of the misaligned-warp scenario. -/
def misalignedF : Nat → Bool := fun i => decide (i < 31) || (i == 256) || (i == 257)

/-- The single output column of `copy_if` on the misaligned-warp scenario. -/
def misalignedOut : Column :=
  match copy_if misalignedT misalignedF with
  | .ok t => t.cols.getD 0 default
  | .error _ => default

/-! ## Basic list facts used throughout -/

lemma getD_set_eq {α : Type} (l : List α) (i : Nat) (a d : α) (h : i < l.length) :
    (l.set i a).getD i d = a := by
  simp [List.getD_eq_getElem?_getD, List.getElem?_set, h]

lemma getD_set_ne {α : Type} (l : List α) (i j : Nat) (a d : α) (h : i ≠ j) :
    (l.set i a).getD j d = l.getD j d := by
  simp [List.getD_eq_getElem?_getD, List.getElem?_set, h]

lemma getD_map_range {α : Type} (g : Nat → α) (n i : Nat) (d : α) (h : i < n) :
    ((List.range n).map g).getD i d = g i := by
  simp [List.getD_eq_getElem?_getD, List.getElem?_map, List.getElem?_range h]

lemma getD_append_left {α : Type} (l l' : List α) (i : Nat) (d : α) (h : i < l.length) :
    (l ++ l').getD i d = l.getD i d := by
  simp [List.getD_eq_getElem?_getD, List.getElem?_append, h]

lemma getD_append_right {α : Type} (l l' : List α) (i : Nat) (d : α) :
    (l ++ l').getD (l.length + i) d = l'.getD i d := by
  rw [List.getD_eq_getElem?_getD, List.getElem?_append_right (Nat.le_add_right l.length i),
    Nat.add_sub_cancel_left, ← List.getD_eq_getElem?_getD]

lemma getD_append_len {α : Type} (l l' : List α) (d : α) :
    (l ++ l').getD l.length d = l'.getD 0 d := by
  have h := getD_append_right l l' 0 d
  simpa using h

lemma take_succ_sum (l : List Nat) (i : Nat) (h : i < l.length) :
    (l.take (i + 1)).sum = (l.take i).sum + l.getD i 0 := by
  have hsome : l[i]? = some (l.getD i 0) := by
    simp [List.getD_eq_getElem?_getD, List.getElem?_eq_getElem h]
  rw [List.take_succ, hsome]
  simp

/-! ## Counting and enumerating predicate-true indices -/

lemma passCount_zero (f : Nat → Bool) : passCount f 0 = 0 := rfl

lemma selList_length (f : Nat → Bool) (m : Nat) : (selList f m).length = passCount f m := rfl

lemma selList_add (f : Nat → Bool) (a b : Nat) :
    selList f (a + b) =
      selList f a ++ ((List.range b).filter (fun t => f (a + t))).map (fun t => a + t) := by
  unfold selList
  rw [List.range_add, List.filter_append, List.filter_map]
  rfl

lemma passCount_add (f : Nat → Bool) (a b : Nat) :
    passCount f (a + b) = passCount f a + ((List.range b).filter (fun t => f (a + t))).length := by
  have h := congrArg List.length (selList_add f a b)
  simpa [selList_length, List.length_append] using h

lemma passCount_mono (f : Nat → Bool) {a b : Nat} (h : a ≤ b) :
    passCount f a ≤ passCount f b := by
  obtain ⟨c, rfl⟩ := Nat.exists_eq_add_of_le h
  rw [passCount_add]; omega

lemma passCount_le (f : Nat → Bool) (m : Nat) : passCount f m ≤ m := by
  have := List.length_filter_le f (List.range m)
  simpa [passCount] using this

lemma selList_getD_left (f : Nat → Bool) (a b p : Nat) (h : p < passCount f a) :
    (selList f (a + b)).getD p 0 = (selList f a).getD p 0 := by
  rw [selList_add, getD_append_left]
  rwa [selList_length]

lemma selList_getD_right (f : Nat → Bool) (a b j : Nat)
    (h : j < ((List.range b).filter (fun t => f (a + t))).length) :
    (selList f (a + b)).getD (passCount f a + j) 0 =
      a + ((List.range b).filter (fun t => f (a + t))).getD j 0 := by
  rw [selList_add]
  have hl : (selList f a).length = passCount f a := selList_length f a
  rw [← hl, getD_append_right]
  rw [List.getD_eq_getElem?_getD, List.getElem?_map, List.getElem?_eq_getElem h,
    List.getD_eq_getElem?_getD, List.getElem?_eq_getElem h]
  rfl

lemma passCount_oob {f : Nat → Bool} {n : Nat} (hf : ∀ i, n ≤ i → f i = false)
    {m : Nat} (h : n ≤ m) : passCount f m = passCount f n ∧ selList f m = selList f n := by
  obtain ⟨c, rfl⟩ := Nat.exists_eq_add_of_le h
  have hempty : (List.range c).filter (fun t => f (n + t)) = [] := by
    apply List.filter_eq_nil_iff.mpr
    intro t _
    simp [hf (n + t) (Nat.le_add_right n t)]
  constructor
  · rw [passCount_add, hempty]; rfl
  · rw [selList_add, hempty]; simp

lemma selList_all_true {f : Nat → Bool} {n : Nat} (hf : ∀ i, i < n → f i = true) :
    selList f n = List.range n := by
  unfold selList
  apply List.filter_eq_self.mpr
  intro a ha
  exact hf a (List.mem_range.mp ha)

lemma passCount_all_true {f : Nat → Bool} {n : Nat} (hf : ∀ i, i < n → f i = true) :
    passCount f n = n := by
  have := congrArg List.length (selList_all_true hf)
  simpa [selList_length] using this

lemma passCount_all_false {f : Nat → Bool} (hf : ∀ i, f i = false) (m : Nat) :
    passCount f m = 0 := by
  unfold passCount
  rw [List.filter_eq_nil_iff.mpr (fun a _ => by simp [hf a])]
  rfl

/-! ## The exclusive scan -/

lemma exclusive_scan_from_length (acc : Nat) (l : List Nat) :
    (exclusive_scan_from acc l).length = l.length := by
  induction l generalizing acc with
  | nil => rfl
  | cons c cs ih => simp [exclusive_scan_from, ih]

lemma exclusive_scan_from_getD (l : List Nat) (acc i : Nat) (h : i < l.length) :
    (exclusive_scan_from acc l).getD i 0 = acc + (l.take i).sum := by
  induction l generalizing acc i with
  | nil => simp at h
  | cons c cs ih =>
    cases i with
    | zero => simp [exclusive_scan_from]
    | succ j =>
      have hj : j < cs.length := by simpa using h
      have hrec := ih (acc + c) j hj
      simp only [exclusive_scan_from, List.getD_cons_succ, hrec, List.take_succ_cons,
        List.sum_cons]
      omega

lemma exclusive_scan_getD (l : List Nat) (i : Nat) (h : i < l.length) :
    (exclusive_scan l).getD i 0 = (l.take i).sum := by
  unfold exclusive_scan
  rw [exclusive_scan_from_getD l 0 i h, Nat.zero_add]

/-! ## The block pass-count stage -/

lemma syncthreads_count_eq (f : Nat → Bool) (base : Nat) :
    syncthreads_count (fun t => f (t + base)) =
      ((List.range block_size).filter (fun t => f (base + t))).length := by
  unfold syncthreads_count
  congr 1
  apply List.filter_congr
  intro t _
  simp [Nat.add_comm]

lemma compute_block_count_eq (f : Nat → Bool) (b : Nat) :
    passCount f (block_size * per_thread * b) + compute_block_count f b =
      passCount f (block_size * per_thread * (b + 1)) := by
  unfold compute_block_count
  have key : ∀ u : Nat,
      passCount f (block_size * per_thread * b) +
        (List.range u).foldl
          (fun count i => count + syncthreads_count (fun t => f (t + tile_base b i))) 0 =
      passCount f (block_size * per_thread * b + u * block_size) := by
    intro u
    induction u with
    | zero => simp
    | succ v ih =>
      rw [List.range_succ, List.foldl_append]
      simp only [List.foldl_cons, List.foldl_nil]
      have hbase : tile_base b v = block_size * per_thread * b + v * block_size := by
        unfold tile_base
        ring
      rw [syncthreads_count_eq f (tile_base b v), hbase]
      have hadd := passCount_add f (block_size * per_thread * b + v * block_size) block_size
      have hmul : block_size * per_thread * b + (v + 1) * block_size =
          block_size * per_thread * b + v * block_size + block_size := by ring
      rw [hmul]
      omega
  have h32 := key per_thread
  have : block_size * per_thread * b + per_thread * block_size =
      block_size * per_thread * (b + 1) := by ring
  rw [this] at h32
  exact h32

lemma compute_block_counts_getD (f : Nat → Bool) (nb b : Nat) (h : b < nb) :
    (compute_block_counts f nb).getD b 0 = compute_block_count f b := by
  unfold compute_block_counts
  exact getD_map_range _ nb b 0 h

lemma compute_block_counts_length (f : Nat → Bool) (nb : Nat) :
    (compute_block_counts f nb).length = nb := by
  simp [compute_block_counts]

lemma compute_block_counts_take_sum (f : Nat → Bool) (nb : Nat) :
    ∀ i, i ≤ nb → ((compute_block_counts f nb).take i).sum =
      passCount f (block_size * per_thread * i) := by
  intro i
  induction i with
  | zero => simp [passCount_zero]
  | succ j ih =>
    intro h
    have hj : j < nb := h
    rw [take_succ_sum _ j (by rw [compute_block_counts_length]; exact hj),
      ih (Nat.le_of_lt hj), compute_block_counts_getD f nb j hj]
    exact compute_block_count_eq f j

/-! ## Scan offsets and the resolved output size -/

lemma block_offsets_getD (f : Nat → Bool) (nb b : Nat) (h : b < nb) :
    (block_offsets_of (compute_block_counts f nb) nb).getD b 0 =
      passCount f (block_size * per_thread * b) := by
  unfold block_offsets_of
  by_cases h1 : nb > 1
  · rw [if_pos h1, exclusive_scan_getD _ b (by rw [compute_block_counts_length]; exact h)]
    exact compute_block_counts_take_sum f nb b (Nat.le_of_lt h)
  · rw [if_neg h1]
    have hb : b = 0 := by omega
    subst hb
    simp [List.getD_eq_getElem?_getD, List.getElem?_replicate, h, passCount_zero]

lemma output_size_eq (f : Nat → Bool) (nb : Nat) (h : 1 ≤ nb) :
    get_output_size (compute_block_counts f nb) (block_offsets_of (compute_block_counts f nb) nb)
        nb = passCount f (block_size * per_thread * nb) := by
  by_cases h1 : nb > 1
  · unfold get_output_size
    rw [if_pos h1, compute_block_counts_getD f nb (nb - 1) (by omega),
      block_offsets_getD f nb (nb - 1) (by omega)]
    have htel := compute_block_count_eq f (nb - 1)
    have hsucc : nb - 1 + 1 = nb := by omega
    rw [hsucc] at htel
    omega
  · have hnb : nb = 1 := by omega
    subst hnb
    unfold get_output_size
    rw [if_neg (by omega)]
    have hcount := compute_block_counts_getD f 1 0 (by omega)
    have htel := compute_block_count_eq f 0
    simp only [Nat.mul_zero, passCount_zero, Nat.zero_add] at htel
    rw [show (1 : Nat) - 1 = 0 from rfl, hcount]
    omega

lemma num_blocks_bounds {n : Nat} (h : 1 ≤ n) :
    1 ≤ num_blocks n ∧ n ≤ block_size * per_thread * num_blocks n := by
  unfold num_blocks block_size per_thread
  constructor <;> omega

/-! ## Branch analysis of the orchestrator -/

lemma getD_map {α β : Type} (l : List α) (g : α → β) (j : Nat) (d : β) (d' : α)
    (h : j < l.length) : (l.map g).getD j d = g (l.getD j d') := by
  simp [List.getD_eq_getElem?_getD, List.getElem?_map, List.getElem?_eq_getElem h]

lemma empty_like_num_rows (t : Table) : (empty_like t).num_rows = 0 := by
  unfold empty_like Table.num_rows
  cases t.cols <;> simp [empty_column]

lemma empty_like_cols_length (t : Table) : (empty_like t).cols.length = t.cols.length := by
  simp [empty_like]

lemma empty_like_getD (t : Table) (j : Nat) (h : j < t.cols.length) :
    (empty_like t).cols.getD j default = empty_column (t.cols.getD j default) := by
  unfold empty_like
  exact getD_map t.cols empty_column j default default h

lemma copy_if_degenerate (input : Table) (f : Nat → Bool)
    (h : input.num_rows = 0 ∨ input.num_columns = 0) :
    copy_if input f = .ok (empty_like input) := by
  unfold copy_if
  rw [if_pos (by omega)]

lemma copy_if_resolved (input : Table) (f : Nat → Bool) (h0 : 0 < input.num_rows)
    (hc : 0 < input.num_columns) (hdata : ∀ c ∈ input.cols, c.data.isSome = true)
    (hoob : ∀ i, input.num_rows ≤ i → f i = false) :
    copy_if input f =
      if passCount f input.num_rows = input.num_rows then .ok (copy input)
      else if passCount f input.num_rows > 0 then
        .ok ⟨input.cols.map (fun c => scatter_column c (passCount f input.num_rows)
          (block_offsets_of (compute_block_counts f (num_blocks input.num_rows))
            (num_blocks input.num_rows)) (num_blocks input.num_rows) f)⟩
      else .ok (empty_like input) := by
  have hnb := num_blocks_bounds h0
  have hplateau := passCount_oob hoob hnb.2
  have hos := output_size_eq f (num_blocks input.num_rows) hnb.1
  rw [hplateau.1] at hos
  have hall : (input.cols.all fun c => c.data.isSome) = true := List.all_eq_true.mpr hdata
  unfold copy_if
  rw [if_neg (by omega), if_neg (by simp [hall])]
  simp only [hos]

/-- C1: for every table `T` with row count `n` and every predicate respecting
the out-of-range-false contract, `copy_if(T, P)` succeeds and the returned
table's row count is the number of indices `i < n` with `P i = true`; this
count equals the value resolved by `get_output_size` (the last block's
exclusive-scan offset plus the last block's pass count). -/
theorem copy_if_output_row_count (T : Table) (f : Nat → Bool) (hwf : T.wf)
    (hoob : ∀ i, T.num_rows ≤ i → f i = false) :
    ∃ out, copy_if T f = .ok out ∧
      out.num_rows = ((List.range T.num_rows).filter f).length ∧
      out.num_rows = get_output_size (compute_block_counts f (num_blocks T.num_rows))
        (block_offsets_of (compute_block_counts f (num_blocks T.num_rows))
          (num_blocks T.num_rows)) (num_blocks T.num_rows) := by
  have hK : ((List.range T.num_rows).filter f).length = passCount f T.num_rows := rfl
  by_cases h0 : T.num_rows = 0
  · refine ⟨empty_like T, copy_if_degenerate T f (Or.inl h0), ?_, ?_⟩
    · rw [empty_like_num_rows, hK, h0, passCount_zero]
    · rw [empty_like_num_rows, h0]
      have : num_blocks 0 = 0 := by unfold num_blocks block_size per_thread; omega
      rw [this]
      rfl
  · by_cases hc : T.num_columns = 0
    · exfalso
      unfold Table.num_columns at hc
      have : T.cols = [] := List.length_eq_zero.mp hc
      unfold Table.num_rows at h0
      rw [this] at h0
      exact h0 rfl
    · have h0' : 0 < T.num_rows := Nat.pos_of_ne_zero h0
      have hc' : 0 < T.num_columns := Nat.pos_of_ne_zero hc
      have hdata : ∀ c ∈ T.cols, c.data.isSome = true := fun c hcm => ((hwf c hcm).1).1
      have hres := copy_if_resolved T f h0' hc' hdata hoob
      have hnb := num_blocks_bounds h0'
      have hplateau := passCount_oob hoob hnb.2
      have hos := output_size_eq f (num_blocks T.num_rows) hnb.1
      rw [hplateau.1] at hos
      by_cases hfull : passCount f T.num_rows = T.num_rows
      · refine ⟨copy T, ?_, ?_, ?_⟩
        · rw [hres, if_pos hfull]
        · rw [hK, hfull]; rfl
        · rw [hos, hfull]; rfl
      · by_cases hpos : passCount f T.num_rows > 0
        · have hrows : (⟨T.cols.map (fun c => scatter_column c (passCount f T.num_rows)
              (block_offsets_of (compute_block_counts f (num_blocks T.num_rows))
                (num_blocks T.num_rows)) (num_blocks T.num_rows) f)⟩ : Table).num_rows =
              passCount f T.num_rows := by
            obtain ⟨c, rest, hcols⟩ : ∃ c rest, T.cols = c :: rest := by
              cases hcl : T.cols with
              | nil => exfalso; unfold Table.num_columns at hc'; rw [hcl] at hc'; simp at hc'
              | cons c rest => exact ⟨c, rest, rfl⟩
            rw [hcols]
            rfl
          refine ⟨_, by rw [hres, if_neg hfull, if_pos hpos], ?_, ?_⟩
          · rw [hrows]; exact hK.symm
          · rw [hrows, hos]
        · have hzero : passCount f T.num_rows = 0 := by omega
          refine ⟨empty_like T, by rw [hres, if_neg hfull, if_neg hpos], ?_, ?_⟩
          · rw [empty_like_num_rows, hK, hzero]
          · rw [empty_like_num_rows, hos, hzero]

/-- C4: when the predicate is true for every in-range row of a nonempty,
well-formed table (and false out of range), `copy_if` takes the fast path and
returns a full copy of the input, which equals the input exactly. -/
theorem copy_if_all_pass_copy (T : Table) (f : Nat → Bool) (hwf : T.wf)
    (h0 : 0 < T.num_rows) (hc : 0 < T.num_columns)
    (htrue : ∀ i, i < T.num_rows → f i = true)
    (hoob : ∀ i, T.num_rows ≤ i → f i = false) :
    copy_if T f = .ok (copy T) ∧ copy T = T := by
  have hdata : ∀ c ∈ T.cols, c.data.isSome = true := fun c hcm => ((hwf c hcm).1).1
  have hres := copy_if_resolved T f h0 hc hdata hoob
  have hfull : passCount f T.num_rows = T.num_rows := passCount_all_true htrue
  exact ⟨by rw [hres, if_pos hfull], rfl⟩

/-- C5: the scan stage produces exclusive prefix sums of the block counts
(`block_offsets[i] = sum of block_counts[j] for j < i`), a single block gets
the offset array `[0]` with no scan, and the resolved output size is the last
block's offset plus the last block's pass count. -/
theorem scan_offsets_and_output_size (f : Nat → Bool) (n : Nat) :
    (∀ i, i < num_blocks n →
      (block_offsets_of (compute_block_counts f (num_blocks n)) (num_blocks n)).getD i 0 =
        (((compute_block_counts f (num_blocks n)).take i).sum)) ∧
    (num_blocks n = 1 →
      block_offsets_of (compute_block_counts f (num_blocks n)) (num_blocks n) = [0]) ∧
    (get_output_size (compute_block_counts f (num_blocks n))
        (block_offsets_of (compute_block_counts f (num_blocks n)) (num_blocks n))
        (num_blocks n) =
      (block_offsets_of (compute_block_counts f (num_blocks n)) (num_blocks n)).getD
          (num_blocks n - 1) 0 +
        (compute_block_counts f (num_blocks n)).getD (num_blocks n - 1) 0) := by
  refine ⟨?_, ?_, ?_⟩
  · intro i hi
    unfold block_offsets_of
    by_cases h1 : num_blocks n > 1
    · rw [if_pos h1,
        exclusive_scan_getD _ i (by rw [compute_block_counts_length]; exact hi)]
    · rw [if_neg h1]
      have : i = 0 := by omega
      subst this
      have hnb : num_blocks n = 1 := by omega
      simp [List.getD_eq_getElem?_getD, List.getElem?_replicate, hi]
  · intro h1
    unfold block_offsets_of
    rw [if_neg (by omega), h1]
    rfl
  · unfold get_output_size
    by_cases h1 : num_blocks n > 1
    · rw [if_pos h1]
      omega
    · rw [if_neg h1]
      by_cases h0 : num_blocks n = 0
      · rw [h0]
        unfold block_offsets_of
        rw [if_neg (by omega)]
        simp
      · have hnb : num_blocks n = 1 := by omega
        rw [hnb]
        unfold block_offsets_of
        rw [if_neg (by omega)]
        simp

/-- C6: a nonempty table (nonzero rows and columns) in which some column has a
null data buffer makes `copy_if` fail with the fatal "Null input data"
precondition error before any kernel work. -/
theorem copy_if_null_data_error (T : Table) (f : Nat → Bool) (h0 : 0 < T.num_rows)
    (hc : 0 < T.num_columns) (hnull : ∃ c ∈ T.cols, c.data = none) :
    copy_if T f = .error "Null input data" := by
  obtain ⟨c, hcm, hcd⟩ := hnull
  have hnall : (T.cols.all fun c => c.data.isSome) = false := by
    apply List.all_eq_false.mpr
    exact ⟨c, hcm, by rw [hcd]; simp⟩
  unfold copy_if
  rw [if_neg (by omega), if_pos (by simp [hnall])]

/-! ## The data path of the scatter kernel -/

lemma getD_range (n k : Nat) (h : k < n) : (List.range n).getD k 0 = k := by
  simp [List.getD_eq_getElem?_getD, List.getElem?_range h]

lemma filter_comm_base (f : Nat → Bool) (base n : Nat) :
    (List.range n).filter (fun t => f (t + base)) =
      (List.range n).filter (fun t => f (base + t)) := by
  apply List.filter_congr
  intro t _
  rw [Nat.add_comm]

lemma stage_data_spec (idat : Nat → Int) (base : Nat) (mask : Nat → Bool) :
    (stage_data idat base mask).length = block_size ∧
    ∀ j, j < ((List.range block_size).filter mask).length →
      (stage_data idat base mask).getD j 0 =
        idat (((List.range block_size).filter mask).getD j 0 + base) := by
  unfold stage_data
  have key : ∀ u, u ≤ block_size →
      ((List.range u).foldl
        (fun temp t => if mask t then temp.set (local_index mask t) (idat (t + base))
          else temp) (List.replicate block_size 0)).length = block_size ∧
      ∀ j, j < ((List.range u).filter mask).length →
        ((List.range u).foldl
          (fun temp t => if mask t then temp.set (local_index mask t) (idat (t + base))
            else temp) (List.replicate block_size 0)).getD j 0 =
          idat (((List.range u).filter mask).getD j 0 + base) := by
    intro u
    induction u with
    | zero =>
      intro _
      constructor
      · simp
      · intro j hj
        simp at hj
    | succ v ih =>
      intro hu
      have hv : v ≤ block_size := Nat.le_of_succ_le hu
      obtain ⟨ihlen, ihval⟩ := ih hv
      rw [List.range_succ, List.foldl_append, List.filter_append]
      simp only [List.foldl_cons, List.foldl_nil]
      by_cases hm : mask v
      · have hcnt : local_index mask v = ((List.range v).filter mask).length := rfl
        rw [if_pos hm]
        have hfv : List.filter mask [v] = [v] := by simp [hm]
        rw [hfv]
        have hlt : local_index mask v < block_size := by
          have h1 : ((List.range v).filter mask).length ≤ v := by
            have := List.length_filter_le mask (List.range v)
            simpa using this
          omega
        constructor
        · rw [List.length_set, ihlen]
        · intro j hj
          rw [List.length_append] at hj
          simp only [List.length_cons, List.length_nil] at hj
          by_cases hje : j = ((List.range v).filter mask).length
          · subst hje
            rw [hcnt]
            rw [getD_set_eq _ _ _ _ (by rw [ihlen]; exact hcnt ▸ hlt)]
            rw [getD_append_len]
            rfl
          · have hjlt : j < ((List.range v).filter mask).length := by omega
            rw [getD_set_ne _ _ _ _ _ (by omega), ihval j hjlt,
              getD_append_left _ _ _ _ hjlt]
      · rw [if_neg hm]
        have hfv : List.filter mask [v] = [] := by simp [hm]
        rw [hfv, List.append_nil]
        exact ⟨ihlen, ihval⟩
  exact key block_size (Nat.le_refl block_size)

lemma write_data_spec (out : List Int) (boff : Nat) (temp : List Int) (s : Nat)
    (hs : s ≤ block_size) (hbs : boff + s ≤ out.length) :
    (write_data out boff temp s).length = out.length ∧
    ∀ p, (write_data out boff temp s).getD p 0 =
      if boff ≤ p ∧ p < boff + s then temp.getD (p - boff) 0 else out.getD p 0 := by
  unfold write_data
  have key : ∀ u, u ≤ block_size →
      ((List.range u).foldl
        (fun o t => if t < s then o.set (boff + t) (temp.getD t 0) else o) out).length =
        out.length ∧
      ∀ p, ((List.range u).foldl
          (fun o t => if t < s then o.set (boff + t) (temp.getD t 0) else o) out).getD p 0 =
        if boff ≤ p ∧ p < boff + min u s then temp.getD (p - boff) 0 else out.getD p 0 := by
    intro u
    induction u with
    | zero =>
      intro _
      constructor
      · rfl
      · intro p
        rw [if_neg (by omega)]
        rfl
    | succ v ih =>
      intro hu
      have hv : v ≤ block_size := Nat.le_of_succ_le hu
      obtain ⟨ihlen, ihval⟩ := ih hv
      rw [List.range_succ, List.foldl_append]
      simp only [List.foldl_cons, List.foldl_nil]
      by_cases hvs : v < s
      · rw [if_pos hvs]
        constructor
        · rw [List.length_set, ihlen]
        · intro p
          by_cases hpe : p = boff + v
          · subst hpe
            rw [getD_set_eq _ _ _ _ (by rw [ihlen]; omega)]
            rw [if_pos (by omega), Nat.add_sub_cancel_left]
          · rw [getD_set_ne _ _ _ _ _ (by omega), ihval p]
            by_cases hcov : boff ≤ p ∧ p < boff + min v s
            · rw [if_pos hcov, if_pos (by omega)]
            · rw [if_neg hcov, if_neg (by omega)]
      · rw [if_neg hvs]
        have : min (v + 1) s = min v s := by omega
        rw [this]
        exact ⟨ihlen, ihval⟩
  obtain ⟨hlen, hval⟩ := key block_size (Nat.le_refl block_size)
  refine ⟨hlen, fun p => ?_⟩
  rw [hval p]
  have : min block_size s = s := by omega
  rw [this]

lemma scatter_tile_data (idat : Nat → Int) (ivalid : Option (Nat → Bool)) (f : Nat → Bool)
    (base : Nat) (st : ScatterState) :
    (scatter_tile idat ivalid f base st).data =
      write_data st.data st.block_offset (stage_data idat base (fun t => f (t + base)))
        (block_sum_of (fun t => f (t + base))) ∧
    (scatter_tile idat ivalid f base st).block_offset =
      st.block_offset + block_sum_of (fun t => f (t + base)) := by
  cases ivalid <;> simp [scatter_tile]

lemma scatter_tile_invariant (f : Nat → Bool) (idat : Nat → Int) (iv : Option (Nat → Bool))
    (N K : Nat) (base : Nat) (hbase : base + block_size ≤ N) (hKN : passCount f N ≤ K)
    (st : ScatterState) (hoff : st.block_offset = passCount f base)
    (hlen : st.data.length = K)
    (hprev : ∀ p, p < passCount f base → st.data.getD p 0 = idat ((selList f N).getD p 0)) :
    (scatter_tile idat iv f base st).block_offset = passCount f (base + block_size) ∧
    (scatter_tile idat iv f base st).data.length = K ∧
    ∀ p, p < passCount f (base + block_size) →
      (scatter_tile idat iv f base st).data.getD p 0 = idat ((selList f N).getD p 0) := by
  obtain ⟨hdata, hoff'⟩ := scatter_tile_data idat iv f base st
  have hcomm := filter_comm_base f base block_size
  have hadd := passCount_add f base block_size
  have hs : block_sum_of (fun t => f (t + base)) =
      ((List.range block_size).filter (fun t => f (base + t))).length := by
    unfold block_sum_of
    rw [hcomm]
  have hsum : passCount f base + block_sum_of (fun t => f (t + base)) =
      passCount f (base + block_size) := by
    rw [hs, hadd]
  have hple : passCount f (base + block_size) ≤ passCount f N := passCount_mono f hbase
  have hbs : st.block_offset + block_sum_of (fun t => f (t + base)) ≤ st.data.length := by
    rw [hoff, hlen]
    omega
  have hsb : block_sum_of (fun t => f (t + base)) ≤ block_size := by
    unfold block_sum_of
    have := List.length_filter_le (fun t => f (t + base)) (List.range block_size)
    simpa using this
  obtain ⟨hwlen, hwval⟩ := write_data_spec st.data st.block_offset
    (stage_data idat base (fun t => f (t + base))) (block_sum_of (fun t => f (t + base)))
    hsb hbs
  obtain ⟨hslen, hsval⟩ := stage_data_spec idat base (fun t => f (t + base))
  refine ⟨by rw [hoff', hoff, hsum], by rw [hdata, hwlen, hlen], ?_⟩
  intro p hp
  rw [hdata, hwval p]
  by_cases hcov : st.block_offset ≤ p ∧
      p < st.block_offset + block_sum_of (fun t => f (t + base))
  · rw [if_pos hcov]
    have hj : p - st.block_offset < block_sum_of (fun t => f (t + base)) := by omega
    rw [hsval (p - st.block_offset) hj]
    obtain ⟨c, rfl⟩ : ∃ c, N = (base + block_size) + c :=
      Nat.exists_eq_add_of_le hbase
    have hstab := selList_getD_left f (base + block_size) c p hp
    have hpj : p = passCount f base + (p - st.block_offset) := by omega
    have hidx : p - st.block_offset <
        ((List.range block_size).filter (fun t => f (base + t))).length := by
      rw [← hs]
      omega
    have hright := selList_getD_right f base block_size (p - st.block_offset) hidx
    rw [hstab]
    conv_rhs => rw [hpj]
    rw [hright, hcomm]
    congr 1
    omega
  · rw [if_neg hcov]
    have hplt : p < passCount f base := by
      rw [hoff] at hcov
      omega
    exact hprev p hplt

lemma scatter_block_invariant (f : Nat → Bool) (idat : Nat → Int) (iv : Option (Nat → Bool))
    (N K : Nat) (offsets : List Nat) (b : Nat)
    (hbN : block_size * per_thread * (b + 1) ≤ N) (hKN : passCount f N ≤ K)
    (hoffs : offsets.getD b 0 = passCount f (block_size * per_thread * b))
    (st : ScatterState) (hlen : st.data.length = K)
    (hprev : ∀ p, p < passCount f (block_size * per_thread * b) →
      st.data.getD p 0 = idat ((selList f N).getD p 0)) :
    (scatter_block idat iv f offsets b st).data.length = K ∧
    ∀ p, p < passCount f (block_size * per_thread * (b + 1)) →
      (scatter_block idat iv f offsets b st).data.getD p 0 =
        idat ((selList f N).getD p 0) := by
  unfold scatter_block
  have key : ∀ u, u ≤ per_thread →
      ((List.range u).foldl (fun s i => scatter_tile idat iv f (tile_base b i) s)
        { st with block_offset := offsets.getD b 0 }).block_offset =
        passCount f (block_size * per_thread * b + u * block_size) ∧
      ((List.range u).foldl (fun s i => scatter_tile idat iv f (tile_base b i) s)
        { st with block_offset := offsets.getD b 0 }).data.length = K ∧
      ∀ p, p < passCount f (block_size * per_thread * b + u * block_size) →
        ((List.range u).foldl (fun s i => scatter_tile idat iv f (tile_base b i) s)
          { st with block_offset := offsets.getD b 0 }).data.getD p 0 =
          idat ((selList f N).getD p 0) := by
    intro u
    induction u with
    | zero =>
      intro _
      refine ⟨by simpa using hoffs, hlen, ?_⟩
      intro p hp
      simp only [Nat.zero_mul, Nat.add_zero] at hp
      exact hprev p hp
    | succ v ih =>
      intro hu
      have hv : v ≤ per_thread := Nat.le_of_succ_le hu
      obtain ⟨ihoff, ihlen, ihval⟩ := ih hv
      rw [List.range_succ, List.foldl_append]
      simp only [List.foldl_cons, List.foldl_nil]
      have hbase : tile_base b v = block_size * per_thread * b + v * block_size := by
        unfold tile_base
        ring
      have hstep : block_size * per_thread * b + v * block_size + block_size =
          block_size * per_thread * b + (v + 1) * block_size := by ring
      have hbase' : (block_size * per_thread * b + v * block_size) + block_size ≤ N := by
        have h1 : block_size * per_thread * b + per_thread * block_size =
            block_size * per_thread * (b + 1) := by ring
        have h2 : v * block_size + block_size ≤ per_thread * block_size := by
          have : v + 1 ≤ per_thread := hu
          calc v * block_size + block_size = (v + 1) * block_size := by ring
            _ ≤ per_thread * block_size := Nat.mul_le_mul_right _ this
        omega
      rw [hbase]
      have hres := scatter_tile_invariant f idat iv N K
        (block_size * per_thread * b + v * block_size) hbase' hKN _ ihoff ihlen
        (fun p hp => ihval p hp)
      rw [hstep] at hres
      exact hres
  have h32 := key per_thread (Nat.le_refl per_thread)
  have hfin : block_size * per_thread * b + per_thread * block_size =
      block_size * per_thread * (b + 1) := by ring
  rw [hfin] at h32
  exact ⟨h32.2.1, h32.2.2⟩

lemma scatter_column_data (c : Column) (f : Nat → Bool) (nb : Nat) (offsets : List Nat)
    (hoffs : ∀ b, b < nb → offsets.getD b 0 =
      passCount f (block_size * per_thread * b)) (osize : Nat)
    (hosize : osize = passCount f (block_size * per_thread * nb)) :
    ∀ p, p < osize →
      ((scatter_column c osize offsets nb f).data.getD []).getD p 0 =
        (fun i => (c.data.getD []).getD i 0)
          ((selList f (block_size * per_thread * nb)).getD p 0) := by
  intro p hp
  unfold scatter_column
  simp only [Option.getD_some]
  have key : ∀ u, u ≤ nb →
      ((List.range u).foldl
        (fun st b => scatter_block (fun i => (c.data.getD []).getD i 0)
          (c.valid.map (fun m i => m.getD i false)) f offsets b st)
        ⟨List.replicate osize 0,
          match c.valid with | some _ => List.replicate osize false | none => [], 0, 0⟩).data.length
        = osize ∧
      ∀ q, q < passCount f (block_size * per_thread * u) →
        ((List.range u).foldl
          (fun st b => scatter_block (fun i => (c.data.getD []).getD i 0)
            (c.valid.map (fun m i => m.getD i false)) f offsets b st)
          ⟨List.replicate osize 0,
            match c.valid with | some _ => List.replicate osize false | none => [], 0, 0⟩).data.getD
            q 0 =
          (fun i => (c.data.getD []).getD i 0)
            ((selList f (block_size * per_thread * nb)).getD q 0) := by
    intro u
    induction u with
    | zero =>
      intro _
      constructor
      · simp
      · intro q hq
        rw [show block_size * per_thread * 0 = 0 by ring, passCount_zero] at hq
        omega
    | succ v ih =>
      intro hu
      have hv : v ≤ nb := Nat.le_of_succ_le hu
      obtain ⟨ihlen, ihval⟩ := ih hv
      rw [List.range_succ, List.foldl_append]
      simp only [List.foldl_cons, List.foldl_nil]
      have hvN : block_size * per_thread * (v + 1) ≤ block_size * per_thread * nb :=
        Nat.mul_le_mul_left _ hu
      have hKN : passCount f (block_size * per_thread * nb) ≤ osize := by omega
      exact scatter_block_invariant f _ _ _ osize offsets v hvN hKN
        (hoffs v (by omega)) _ ihlen ihval
  obtain ⟨_, hval⟩ := key nb (Nat.le_refl nb)
  exact hval p (by omega)

/-- C2: for every well-formed table and contract-respecting predicate, every
column of a successful `copy_if` result holds, at each output row `k`, the
input column's element at the `k`-th predicate-true index — the same
selection, in input order, applied uniformly to all columns. -/
theorem copy_if_row_fidelity (T : Table) (f : Nat → Bool) (hwf : T.wf)
    (hoob : ∀ i, T.num_rows ≤ i → f i = false) (out : Table)
    (hout : copy_if T f = .ok out) (j : Nat) (hj : j < out.cols.length)
    (k : Nat) (hk : k < out.num_rows) :
    ((out.cols.getD j default).data.getD []).getD k 0 =
      ((T.cols.getD j default).data.getD []).getD
        (((List.range T.num_rows).filter f).getD k 0) 0 := by
  classical
  by_cases h0 : T.num_rows = 0
  · rw [copy_if_degenerate T f (Or.inl h0)] at hout
    cases hout
    rw [empty_like_num_rows] at hk
    omega
  · by_cases hc : T.num_columns = 0
    · rw [copy_if_degenerate T f (Or.inr hc)] at hout
      cases hout
      rw [empty_like_num_rows] at hk
      omega
    · have h0' : 0 < T.num_rows := Nat.pos_of_ne_zero h0
      have hc' : 0 < T.num_columns := Nat.pos_of_ne_zero hc
      have hdata : ∀ c ∈ T.cols, c.data.isSome = true := fun c hcm => ((hwf c hcm).1).1
      have hres := copy_if_resolved T f h0' hc' hdata hoob
      rw [hres] at hout
      by_cases hfull : passCount f T.num_rows = T.num_rows
      · rw [if_pos hfull] at hout
        cases hout
        have hsel : (List.range T.num_rows).filter f = List.range T.num_rows := by
          have hlen : ((List.range T.num_rows).filter f).length =
              (List.range T.num_rows).length := by
            rw [List.length_range]
            exact hfull
          exact (List.filter_sublist _).eq_of_length hlen
        rw [hsel, getD_range T.num_rows k hk]
        rfl
      · rw [if_neg hfull] at hout
        by_cases hpos : passCount f T.num_rows > 0
        · rw [if_pos hpos] at hout
          cases hout
          have hnb := num_blocks_bounds h0'
          have hplateau := passCount_oob hoob hnb.2
          have hjT : j < T.cols.length := by
            simpa using hj
          have hcolj : (Table.mk (T.cols.map (fun c => scatter_column c
              (passCount f T.num_rows)
              (block_offsets_of (compute_block_counts f (num_blocks T.num_rows))
                (num_blocks T.num_rows)) (num_blocks T.num_rows) f))).cols.getD j default =
              scatter_column (T.cols.getD j default) (passCount f T.num_rows)
                (block_offsets_of (compute_block_counts f (num_blocks T.num_rows))
                  (num_blocks T.num_rows)) (num_blocks T.num_rows) f := by
            exact getD_map T.cols _ j default default hjT
          rw [hcolj]
          have hoffs : ∀ b, b < num_blocks T.num_rows →
              (block_offsets_of (compute_block_counts f (num_blocks T.num_rows))
                (num_blocks T.num_rows)).getD b 0 =
              passCount f (block_size * per_thread * b) :=
            fun b hb => block_offsets_getD f (num_blocks T.num_rows) b hb
          have hosize : passCount f T.num_rows =
              passCount f (block_size * per_thread * num_blocks T.num_rows) :=
            hplateau.1.symm
          have hkK : k < passCount f T.num_rows := by
            have hrows : (Table.mk (T.cols.map (fun c => scatter_column c
                (passCount f T.num_rows)
                (block_offsets_of (compute_block_counts f (num_blocks T.num_rows))
                  (num_blocks T.num_rows)) (num_blocks T.num_rows) f))).num_rows =
                passCount f T.num_rows := by
              obtain ⟨c, rest, hcols⟩ : ∃ c rest, T.cols = c :: rest := by
                cases hcl : T.cols with
                | nil =>
                  exfalso
                  unfold Table.num_columns at hc'
                  rw [hcl] at hc'
                  simp at hc'
                | cons c rest => exact ⟨c, rest, rfl⟩
              rw [hcols]
              rfl
            rwa [hrows] at hk
          have := scatter_column_data (T.cols.getD j default) f (num_blocks T.num_rows)
            (block_offsets_of (compute_block_counts f (num_blocks T.num_rows))
              (num_blocks T.num_rows)) hoffs (passCount f T.num_rows) hosize k hkK
          rw [this, hplateau.2]
          rfl
        · rw [if_neg hpos] at hout
          cases hout
          rw [empty_like_num_rows] at hk
          omega

/-- C7: a table with zero rows or zero columns yields an empty table of the
same schema (column count and dtypes preserved, all sizes zero) with no kernel
work; and a nonempty well-formed table whose predicate rejects every row
yields a zero-row table with identical column count and dtypes. -/
theorem copy_if_empty_and_all_false :
    (∀ (T : Table) (f : Nat → Bool), T.num_rows = 0 ∨ T.num_columns = 0 →
      copy_if T f = .ok (empty_like T) ∧ (empty_like T).num_rows = 0 ∧
        (empty_like T).cols.length = T.cols.length ∧
        (∀ j, j < T.cols.length →
          ((empty_like T).cols.getD j default).dtype = (T.cols.getD j default).dtype ∧
          ((empty_like T).cols.getD j default).size = 0)) ∧
    (∀ (T : Table) (f : Nat → Bool), T.wf → 0 < T.num_rows → 0 < T.num_columns →
      (∀ i, f i = false) →
      copy_if T f = .ok (empty_like T) ∧ (empty_like T).num_rows = 0 ∧
        (empty_like T).cols.length = T.cols.length ∧
        (∀ j, j < T.cols.length →
          ((empty_like T).cols.getD j default).dtype = (T.cols.getD j default).dtype ∧
          ((empty_like T).cols.getD j default).size = 0)) := by
  have hschema : ∀ T : Table, (empty_like T).num_rows = 0 ∧
      (empty_like T).cols.length = T.cols.length ∧
      (∀ j, j < T.cols.length →
        ((empty_like T).cols.getD j default).dtype = (T.cols.getD j default).dtype ∧
        ((empty_like T).cols.getD j default).size = 0) := by
    intro T
    refine ⟨empty_like_num_rows T, empty_like_cols_length T, ?_⟩
    intro j hj
    rw [empty_like_getD T j hj]
    exact ⟨rfl, rfl⟩
  constructor
  · intro T f h
    exact ⟨copy_if_degenerate T f h, hschema T⟩
  · intro T f hwf h0 hc hfalse
    have hdata : ∀ c ∈ T.cols, c.data.isSome = true := fun c hcm => ((hwf c hcm).1).1
    have hres := copy_if_resolved T f h0 hc hdata (fun i _ => hfalse i)
    have hzero : passCount f T.num_rows = 0 := passCount_all_false hfalse T.num_rows
    refine ⟨?_, hschema T⟩
    rw [hres, if_neg (by omega), if_neg (by omega)]

/-! ## The misaligned-warp validity divergence (C3) -/

set_option maxRecDepth 10000 in
/-- C3: concrete divergence of the validity scatter. On a well-formed,
all-valid 258-row input whose predicate respects the out-of-range contract and
selects 33 rows (31 in the first tile, 2 in the second), the 33rd selected row
is input row 257, whose input validity bit is set; yet the output column's
validity bit 32 is unset and its recomputed `null_count` is 1: the
`wid <= last_warp` bound of the warp loop (`last_warp = block_sum / warp_size`)
never ballots scratch bit 32 (`aligned_offset = 31`, `block_sum = 2`), so the
claimed "output validity bit k equals input validity bit at the k-th
predicate-true index" fails, while `null_count` does equal the number of unset
bits of the output mask. -/
theorem copy_if_validity_divergence :
    misalignedT.wf ∧
    (∀ i, misalignedT.num_rows ≤ i → misalignedF i = false) ∧
    ((selList misalignedF misalignedT.num_rows).getD 32 0 = 257 ∧
      misalignedOut.size = 33 ∧
      ((misalignedT.cols.getD 0 default).valid.getD []).getD 257 false = true ∧
      (misalignedOut.valid.getD []).getD 32 false = false ∧
      misalignedOut.null_count = 1 ∧
      ((misalignedOut.valid.getD []).filter (fun b => !b)).length = 1) := by
  refine ⟨by decide, ?_, by decide⟩
  intro i hi
  have h2 : (258 : Nat) ≤ i := hi
  simp only [misalignedF, Bool.or_eq_false_iff, decide_eq_false_iff_not, beq_eq_false_iff_ne,
    ne_eq]
  omega

/-! ## Witnesses for the copy_if claims -/

lemma sampleHalfF_oob : ∀ i, sampleT.num_rows ≤ i → sampleHalfF i = false := by
  intro i hi
  have h2 : (2 : Nat) ≤ i := hi
  simp only [sampleHalfF, decide_eq_false_iff_not]
  omega

lemma sampleF_oob : ∀ i, sampleT.num_rows ≤ i → sampleF i = false := by
  intro i hi
  have h2 : (2 : Nat) ≤ i := hi
  simp only [sampleF, decide_eq_false_iff_not]
  omega

lemma sampleF_all : ∀ i, i < sampleT.num_rows → sampleF i = true := by
  intro i hi
  have h2 : i < 2 := hi
  simp only [sampleF, decide_eq_true_eq]
  omega

/-- Witness for C1 at a concrete table and predicate. -/
theorem copy_if_output_row_count_witness :
    sampleT.wf ∧ (∀ i, sampleT.num_rows ≤ i → sampleHalfF i = false) ∧
    ∃ out, copy_if sampleT sampleHalfF = .ok out ∧
      out.num_rows = ((List.range sampleT.num_rows).filter sampleHalfF).length ∧
      out.num_rows = get_output_size
        (compute_block_counts sampleHalfF (num_blocks sampleT.num_rows))
        (block_offsets_of (compute_block_counts sampleHalfF (num_blocks sampleT.num_rows))
          (num_blocks sampleT.num_rows)) (num_blocks sampleT.num_rows) :=
  ⟨by decide, sampleHalfF_oob,
    copy_if_output_row_count sampleT sampleHalfF (by decide) sampleHalfF_oob⟩

set_option maxRecDepth 10000 in
/-- Witness for C2: output row 1 of the full-pass result equals input row 1,
the second predicate-true index. -/
theorem copy_if_row_fidelity_witness :
    sampleT.wf ∧
    copy_if sampleT sampleF = .ok sampleT ∧
    ((sampleT.cols.getD 0 default).data.getD []).getD 1 0 =
      ((sampleT.cols.getD 0 default).data.getD []).getD
        (((List.range sampleT.num_rows).filter sampleF).getD 1 0) 0 := by
  have hout : copy_if sampleT sampleF = .ok sampleT := by decide
  exact ⟨by decide, hout,
    copy_if_row_fidelity sampleT sampleF (by decide) sampleF_oob _ hout
      0 (by decide) 1 (by decide)⟩

set_option maxRecDepth 10000 in
/-- Witness for C4: the all-pass predicate takes the fast path. -/
theorem copy_if_all_pass_copy_witness :
    sampleT.wf ∧ 0 < sampleT.num_rows ∧ 0 < sampleT.num_columns ∧
    copy_if sampleT sampleF = .ok (copy sampleT) ∧ copy sampleT = sampleT :=
  ⟨by decide, by decide, by decide,
    (copy_if_all_pass_copy sampleT sampleF (by decide) (by decide) (by decide)
      sampleF_all sampleF_oob).1,
    (copy_if_all_pass_copy sampleT sampleF (by decide) (by decide) (by decide)
      sampleF_all sampleF_oob).2⟩

/-- Witness for C5 at a concrete predicate and row count (a single block). -/
theorem scan_offsets_and_output_size_witness :
    (0 < num_blocks 2 ∧
      (block_offsets_of (compute_block_counts sampleHalfF (num_blocks 2)) (num_blocks 2)).getD
          0 0 =
        ((compute_block_counts sampleHalfF (num_blocks 2)).take 0).sum) ∧
    (num_blocks 2 = 1 ∧
      block_offsets_of (compute_block_counts sampleHalfF (num_blocks 2)) (num_blocks 2) =
        [0]) ∧
    get_output_size (compute_block_counts sampleHalfF (num_blocks 2))
        (block_offsets_of (compute_block_counts sampleHalfF (num_blocks 2)) (num_blocks 2))
        (num_blocks 2) =
      (block_offsets_of (compute_block_counts sampleHalfF (num_blocks 2)) (num_blocks 2)).getD
          (num_blocks 2 - 1) 0 +
        (compute_block_counts sampleHalfF (num_blocks 2)).getD (num_blocks 2 - 1) 0 :=
  ⟨⟨by decide, (scan_offsets_and_output_size sampleHalfF 2).1 0 (by decide)⟩,
    ⟨by decide, (scan_offsets_and_output_size sampleHalfF 2).2.1 (by decide)⟩,
    (scan_offsets_and_output_size sampleHalfF 2).2.2⟩

/-- Witness for C6 at a concrete table with a null data buffer. -/
theorem copy_if_null_data_error_witness :
    0 < nullDataT.num_rows ∧ 0 < nullDataT.num_columns ∧
    (∃ c ∈ nullDataT.cols, c.data = none) ∧
    copy_if nullDataT sampleF = .error "Null input data" := by
  have hex : ∃ c ∈ nullDataT.cols, c.data = none :=
    ⟨⟨1, 2, none, none, 0⟩, by decide, rfl⟩
  exact ⟨by decide, by decide, hex,
    copy_if_null_data_error nullDataT sampleF (by decide) (by decide) hex⟩

/-- Witness for C7: the zero-row branch on a concrete empty table and the
all-false branch on a concrete nonempty table. -/
theorem copy_if_empty_and_all_false_witness :
    (sampleT0.num_rows = 0 ∨ sampleT0.num_columns = 0) ∧
    (copy_if sampleT0 sampleF = .ok (empty_like sampleT0) ∧
      (empty_like sampleT0).num_rows = 0 ∧
      (empty_like sampleT0).cols.length = sampleT0.cols.length ∧
      (∀ j, j < sampleT0.cols.length →
        ((empty_like sampleT0).cols.getD j default).dtype =
          (sampleT0.cols.getD j default).dtype ∧
        ((empty_like sampleT0).cols.getD j default).size = 0)) ∧
    (sampleT.wf ∧ 0 < sampleT.num_rows ∧ 0 < sampleT.num_columns ∧
      (∀ i, falseF i = false)) ∧
    (copy_if sampleT falseF = .ok (empty_like sampleT) ∧
      (empty_like sampleT).num_rows = 0 ∧
      (empty_like sampleT).cols.length = sampleT.cols.length ∧
      (∀ j, j < sampleT.cols.length →
        ((empty_like sampleT).cols.getD j default).dtype =
          (sampleT.cols.getD j default).dtype ∧
        ((empty_like sampleT).cols.getD j default).size = 0)) :=
  ⟨Or.inl (by decide),
    copy_if_empty_and_all_false.1 sampleT0 sampleF (Or.inl (by decide)),
    ⟨by decide, by decide, by decide, fun _ => rfl⟩,
    copy_if_empty_and_all_false.2 sampleT falseF (by decide) (by decide) (by decide)
      (fun _ => rfl)⟩

end Cudf

namespace Cudf.Clamp

/-! ## Lemmas and claims for the clamp transform -/

/-- An empty fixed-width input for the C8 counterexample. -/
def cxEmptyIn : CV := CV.fixed 1 [] none 0

/-- A valid lower limit. -/
def cxLo : Scalar := .fixed 1 true 2

/-- A null lower replacement. -/
def cxLoRep : Scalar := .fixed 1 false 0

/-- A valid upper limit. -/
def cxHi : Scalar := .fixed 1 true 8

/-- A valid upper replacement. -/
def cxHiRep : Scalar := .fixed 1 true 80

/-- A small nullable fixed-width clamp input (row 2 null). -/
def wClampIn : CV := CV.fixed 1 [1, 5, 9] (some [true, true, false]) 1

/-- A valid lower replacement. -/
def wLoRep : Scalar := .fixed 1 true 20

lemma getD_zip {α β : Type} (l1 : List α) (l2 : List β) (i : Nat) (d1 : α) (d2 : β)
    (h1 : i < l1.length) (h2 : i < l2.length) :
    (l1.zip l2).getD i (d1, d2) = (l1.getD i d1, l2.getD i d2) := by
  induction l1 generalizing l2 i with
  | nil => simp at h1
  | cons a as ih =>
    cases l2 with
    | nil => simp at h2
    | cons b bs =>
      cases i with
      | zero => rfl
      | succ j =>
        have hj1 : j < as.length := by simpa using h1
        have hj2 : j < bs.length := by simpa using h2
        simpa using ih bs j hj1 hj2

lemma all_true_of_no_false (m : List Bool) (h : (m.filter (fun b => !b)).length = 0) :
    ∀ i, m.getD i true = true := by
  induction m with
  | nil => intro i; rfl
  | cons b bs ih =>
    intro i
    cases b with
    | false => simp at h
    | true =>
      cases i with
      | zero => rfl
      | succ j =>
        have hbs : (bs.filter (fun b => !b)).length = 0 := by simpa using h
        exact ih hbs j

lemma clamp_checks_pass (input : CV) (lo lo_r hi hi_r : Scalar)
    (h1 : lo.dtype = hi.dtype) (h2 : lo_r.dtype = hi_r.dtype)
    (h3 : lo.dtype = lo_r.dtype) (h4 : lo.dtype = input.dtype) :
    clamp input lo lo_r hi hi_r =
      if (¬ lo.is_valid = true ∧ ¬ hi.is_valid = true) ∨ input.is_empty = true then
        .ok input
      else if lo.is_valid = true ∧ ¬ lo_r.is_valid = true then
        .error "lo_replace can't be null"
      else if hi.is_valid = true ∧ ¬ hi_r.is_valid = true then
        .error "hi_replace can't be null"
      else .ok (dispatch_clamp input lo lo_r hi hi_r) := by
  unfold clamp
  rw [if_neg (by simp [h1]), if_neg (by simp [h2]), if_neg (by simp [h3]),
    if_neg (by simp [h4])]

lemma clamp_trans_rule (lo lo_r hi hi_r : Scalar) (x : Int) (xv : Bool) :
    clamp_trans lo lo_r hi hi_r x xv =
      if xv = true ∧ lo.is_valid = true ∧ x < lo.ival then lo_r.ival
      else if xv = true ∧ hi.is_valid = true ∧ x > hi.ival then hi_r.ival
      else x := by
  cases xv <;> simp [clamp_trans, Bool.and_eq_true, decide_eq_true_eq]

lemma clamper_fixed_data_getD (d : Nat) (data : List Int) (valid : Option (List Bool))
    (nc : Nat) (lo lo_r hi hi_r : Scalar) (hwf : maskWf valid data.length nc)
    (i : Nat) (hidx : i < data.length) :
    (clamper_fixed d data valid nc lo lo_r hi hi_r).fixedData.getD i 0 =
      clamp_trans lo lo_r hi hi_r (data.getD i 0) ((valid.getD []).getD i true) := by
  unfold clamper_fixed CV.fixedData
  by_cases hnc : 0 < nc
  · obtain ⟨m, hm⟩ : ∃ m, valid = some m := by
      cases hv : valid with
      | none =>
        exfalso
        unfold maskWf at hwf
        rw [hv] at hwf
        omega
      | some m => exact ⟨m, rfl⟩
    subst hm
    unfold maskWf at hwf
    have hmlen : m.length = data.length := hwf.1
    simp only [if_pos hnc, Option.getD_some]
    have hzl : i < (data.zip m).length := by
      rw [List.length_zip]
      omega
    rw [getD_map (data.zip m) _ i 0 (0, true) hzl, getD_zip data m i 0 true hidx (by omega)]
  · simp only [if_neg hnc]
    rw [getD_map _ _ i 0 (0, true) (by rw [List.length_map]; exact hidx),
      getD_map data _ i (0, true) 0 hidx]
    have hbit : (valid.getD []).getD i true = true := by
      cases hv : valid with
      | none => rfl
      | some m =>
        unfold maskWf at hwf
        rw [hv] at hwf
        have hnc0 : nc = 0 := by omega
        rw [hnc0] at hwf
        exact all_true_of_no_false m hwf.2.symm i
    rw [hbit]

/-- C8 (counterexample): on an empty input column with agreeing types, a valid
`lo` and a null `lo_replace`, `clamp` does not fail — the empty-input early
return fires before the replacement-validity checks and returns a copy of the
input. -/
theorem clamp_precondition_counterexample :
    cxLo.dtype = cxHi.dtype ∧ cxLoRep.dtype = cxHiRep.dtype ∧
    cxLo.dtype = cxLoRep.dtype ∧ cxLo.dtype = cxEmptyIn.dtype ∧
    cxLo.is_valid = true ∧ cxLoRep.is_valid = false ∧
    clamp cxEmptyIn cxLo cxLoRep cxHi cxHiRep = .ok cxEmptyIn := by decide

/-- C8 (amended): mismatched scalar or column types always fail the entry
checks; and on a nonempty input, a valid `lo` (resp. `hi`) with a null
`lo_replace` (resp. `hi_replace`) fails the entry checks. -/
theorem clamp_preconditions_amended (input : CV) (lo lo_r hi hi_r : Scalar) :
    (¬ (lo.dtype = hi.dtype ∧ lo_r.dtype = hi_r.dtype ∧ lo.dtype = lo_r.dtype ∧
        lo.dtype = input.dtype) → ∃ e, clamp input lo lo_r hi hi_r = .error e) ∧
    (lo.dtype = hi.dtype → lo_r.dtype = hi_r.dtype → lo.dtype = lo_r.dtype →
      lo.dtype = input.dtype → input.is_empty = false → lo.is_valid = true →
      lo_r.is_valid = false → ∃ e, clamp input lo lo_r hi hi_r = .error e) ∧
    (lo.dtype = hi.dtype → lo_r.dtype = hi_r.dtype → lo.dtype = lo_r.dtype →
      lo.dtype = input.dtype → input.is_empty = false → hi.is_valid = true →
      hi_r.is_valid = false → ∃ e, clamp input lo lo_r hi hi_r = .error e) := by
  refine ⟨?_, ?_, ?_⟩
  · intro hmm
    by_cases h1 : lo.dtype = hi.dtype
    · by_cases h2 : lo_r.dtype = hi_r.dtype
      · by_cases h3 : lo.dtype = lo_r.dtype
        · have h4 : ¬ lo.dtype = input.dtype := fun h4 => hmm ⟨h1, h2, h3, h4⟩
          exact ⟨_, by
            unfold clamp
            rw [if_neg (by simp [h1]), if_neg (by simp [h2]), if_neg (by simp [h3]),
              if_pos h4]⟩
        · exact ⟨_, by
            unfold clamp
            rw [if_neg (by simp [h1]), if_neg (by simp [h2]), if_pos h3]⟩
      · exact ⟨_, by
          unfold clamp
          rw [if_neg (by simp [h1]), if_pos h2]⟩
    · exact ⟨_, by
        unfold clamp
        rw [if_pos h1]⟩
  · intro h1 h2 h3 h4 hne hlo hlor
    rw [clamp_checks_pass input lo lo_r hi hi_r h1 h2 h3 h4,
      if_neg (by simp [hlo, hne]), if_pos ⟨hlo, by simp [hlor]⟩]
    exact ⟨_, rfl⟩
  · intro h1 h2 h3 h4 hne hhi hhir
    rw [clamp_checks_pass input lo lo_r hi hi_r h1 h2 h3 h4,
      if_neg (by simp [hhi, hne])]
    by_cases hcase : lo.is_valid = true ∧ ¬ lo_r.is_valid = true
    · rw [if_pos hcase]
      exact ⟨_, rfl⟩
    · rw [if_neg hcase, if_pos ⟨hhi, by simp [hhir]⟩]
      exact ⟨_, rfl⟩

/-- C9: on a well-formed fixed-width column with agreeing types and
non-null replacements for each valid limit, `clamp` succeeds and element `i`
of the output is `lo_replace` when the element is valid, `lo` is valid and the
element is below `lo`; otherwise `hi_replace` when the element is valid, `hi`
is valid and the element is above `hi`; otherwise the input element unchanged
(null elements keep their original value); and when both limits are null or
the column is empty the result is a copy of the input column. -/
theorem clamp_fixed_width_semantics (d : Nat) (data : List Int)
    (valid : Option (List Bool)) (nc : Nat) (lo lo_r hi hi_r : Scalar)
    (hwf : (CV.fixed d data valid nc).wf)
    (h1 : lo.dtype = hi.dtype) (h2 : lo_r.dtype = hi_r.dtype)
    (h3 : lo.dtype = lo_r.dtype) (h4 : lo.dtype = d)
    (hrl : lo.is_valid = true → lo_r.is_valid = true)
    (hrh : hi.is_valid = true → hi_r.is_valid = true) :
    (∃ out, clamp (CV.fixed d data valid nc) lo lo_r hi hi_r = .ok out ∧
      ∀ i, i < data.length →
        out.fixedData.getD i 0 =
          (if (valid.getD []).getD i true = true ∧ lo.is_valid = true ∧
              data.getD i 0 < lo.ival then lo_r.ival
           else if (valid.getD []).getD i true = true ∧ hi.is_valid = true ∧
              data.getD i 0 > hi.ival then hi_r.ival
           else data.getD i 0)) ∧
    ((lo.is_valid = false ∧ hi.is_valid = false) ∨ data = [] →
      clamp (CV.fixed d data valid nc) lo lo_r hi hi_r =
        .ok (CV.fixed d data valid nc)) := by
  have h4' : lo.dtype = (CV.fixed d data valid nc).dtype := by
    simpa [CV.dtype] using h4
  have hres := clamp_checks_pass (CV.fixed d data valid nc) lo lo_r hi hi_r h1 h2 h3 h4'
  have hwf' : maskWf valid data.length nc := hwf
  constructor
  · by_cases hearly : (¬ lo.is_valid = true ∧ ¬ hi.is_valid = true) ∨
        (CV.fixed d data valid nc).is_empty = true
    · refine ⟨CV.fixed d data valid nc, by rw [hres, if_pos hearly], ?_⟩
      intro i hi'
      rcases hearly with ⟨hlo, hhi⟩ | hemp
      · rw [if_neg (by simp [hlo]), if_neg (by simp [hhi])]
        rfl
      · exfalso
        have : data.length = 0 := by
          simpa [CV.is_empty, CV.size] using hemp
        omega
    · rw [hres, if_neg hearly,
        if_neg (by intro h; exact absurd (hrl h.1) (by simpa using h.2)),
        if_neg (by intro h; exact absurd (hrh h.1) (by simpa using h.2))]
      refine ⟨_, rfl, ?_⟩
      intro i hi'
      have hd := clamper_fixed_data_getD d data valid nc lo lo_r hi hi_r hwf' i hi'
      unfold dispatch_clamp
      rw [hd, clamp_trans_rule]
  · intro hcase
    rw [hres, if_pos ?_]
    rcases hcase with ⟨hlo, hhi⟩ | hemp
    · exact Or.inl ⟨by simp [hlo], by simp [hhi]⟩
    · refine Or.inr ?_
      simp [CV.is_empty, CV.size, hemp]

/-- C10: every successful `clamp` call — fixed-width or string, including the
no-change early return — yields a column with the input's row count, a
validity mask equal to (a copy of) the input's mask, and the input's
`null_count`: `clamp` never changes which rows are null. -/
theorem clamp_frame (input : CV) (lo lo_r hi hi_r : Scalar) (hwf : input.wf)
    (out : CV) (hout : clamp input lo lo_r hi hi_r = .ok out) :
    out.size = input.size ∧ out.mask = input.mask ∧ out.nulls = input.nulls := by
  unfold clamp at hout
  split_ifs at hout
  all_goals simp only [Except.ok.injEq] at hout
  · subst hout
    exact ⟨rfl, rfl, rfl⟩
  · subst hout
    cases input with
    | fixed d data valid nc =>
      have hwf' : maskWf valid data.length nc := hwf
      cases valid with
      | none =>
        have hnc0 : nc = 0 := hwf'
        subst hnc0
        simp [dispatch_clamp, clamper_fixed, CV.size, CV.mask, CV.nulls]
      | some m =>
        obtain ⟨hmlen, hmnc⟩ := hwf'
        by_cases hnc : 0 < nc
        · simp only [dispatch_clamp, clamper_fixed, CV.size, CV.mask, CV.nulls, if_pos hnc,
            List.length_map, List.length_zip, Option.getD_some]
          exact ⟨by omega, trivial, trivial⟩
        · simp [dispatch_clamp, clamper_fixed, CV.size, CV.mask, CV.nulls, if_neg hnc,
            List.length_map]
    | str data valid nc =>
      unfold dispatch_clamp clamp_string_column
      exact ⟨by simp [CV.size], rfl, rfl⟩

/-! ## Witnesses for the clamp claims -/

/-- Witness for the amended C8: a type mismatch between `lo` and `hi` fails,
and on a nonempty input a valid `lo` with null `lo_replace` fails. -/
theorem clamp_preconditions_amended_witness :
    (¬ ((Scalar.fixed 1 true 0).dtype = (Scalar.fixed 2 true 0).dtype ∧
        (Scalar.fixed 1 true 0).dtype = (Scalar.fixed 1 true 0).dtype ∧
        (Scalar.fixed 1 true 0).dtype = (Scalar.fixed 1 true 0).dtype ∧
        (Scalar.fixed 1 true 0).dtype = (CV.fixed 1 [0] none 0).dtype) ∧
      ∃ e, clamp (CV.fixed 1 [0] none 0) (.fixed 1 true 0) (.fixed 1 true 0)
        (.fixed 2 true 0) (.fixed 2 true 0) = .error e) ∧
    ((CV.fixed 1 [3] none 0).is_empty = false ∧ cxLo.is_valid = true ∧
      cxLoRep.is_valid = false ∧
      ∃ e, clamp (CV.fixed 1 [3] none 0) cxLo cxLoRep cxHi cxHiRep = .error e) :=
  ⟨⟨by decide,
      (clamp_preconditions_amended (CV.fixed 1 [0] none 0) (.fixed 1 true 0)
        (.fixed 1 true 0) (.fixed 2 true 0) (.fixed 2 true 0)).1 (by decide)⟩,
    ⟨by decide, by decide, by decide,
      (clamp_preconditions_amended (CV.fixed 1 [3] none 0) cxLo cxLoRep cxHi
        cxHiRep).2.1 (by decide) (by decide) (by decide) (by decide) (by decide)
        (by decide) (by decide)⟩⟩

/-- Witness for C9 at a concrete nullable column: rows 0 and 1 are clamped,
row 2 is null and untouched. -/
theorem clamp_fixed_width_semantics_witness :
    (CV.fixed 1 [1, 5, 9] (some [true, true, false]) 1).wf ∧
    (∃ out, clamp (CV.fixed 1 [1, 5, 9] (some [true, true, false]) 1) cxLo wLoRep cxHi
        cxHiRep = .ok out ∧
      ∀ i, i < ([1, 5, 9] : List Int).length →
        out.fixedData.getD i 0 =
          (if ((some [true, true, false] : Option (List Bool)).getD []).getD i true = true ∧
              cxLo.is_valid = true ∧ ([1, 5, 9] : List Int).getD i 0 < cxLo.ival
           then wLoRep.ival
           else if ((some [true, true, false] : Option (List Bool)).getD []).getD i true =
                true ∧ cxHi.is_valid = true ∧ ([1, 5, 9] : List Int).getD i 0 > cxHi.ival
           then cxHiRep.ival
           else ([1, 5, 9] : List Int).getD i 0)) ∧
    ((cxLo.is_valid = false ∧ cxHi.is_valid = false) ∨ ([1, 5, 9] : List Int) = [] →
      clamp (CV.fixed 1 [1, 5, 9] (some [true, true, false]) 1) cxLo wLoRep cxHi cxHiRep =
        .ok (CV.fixed 1 [1, 5, 9] (some [true, true, false]) 1)) :=
  ⟨by decide,
    (clamp_fixed_width_semantics 1 [1, 5, 9] (some [true, true, false]) 1 cxLo wLoRep cxHi
      cxHiRep (by decide) (by decide) (by decide) (by decide) (by decide) (by decide)
      (by decide)).1,
    (clamp_fixed_width_semantics 1 [1, 5, 9] (some [true, true, false]) 1 cxLo wLoRep cxHi
      cxHiRep (by decide) (by decide) (by decide) (by decide) (by decide) (by decide)
      (by decide)).2⟩

/-- Witness for C10: a concrete nullable clamp call preserves size, mask and
null count. -/
theorem clamp_frame_witness :
    wClampIn.wf ∧
    clamp wClampIn cxLo wLoRep cxHi cxHiRep =
      .ok (CV.fixed 1 [20, 5, 9] (some [true, true, false]) 1) ∧
    ((CV.fixed 1 [20, 5, 9] (some [true, true, false]) 1).size = wClampIn.size ∧
      (CV.fixed 1 [20, 5, 9] (some [true, true, false]) 1).mask = wClampIn.mask ∧
      (CV.fixed 1 [20, 5, 9] (some [true, true, false]) 1).nulls = wClampIn.nulls) := by
  have hout : clamp wClampIn cxLo wLoRep cxHi cxHiRep =
      .ok (CV.fixed 1 [20, 5, 9] (some [true, true, false]) 1) := by decide
  exact ⟨by decide, hout,
    clamp_frame wClampIn cxLo wLoRep cxHi cxHiRep (by decide) _ hout⟩

end Cudf.Clamp

